import Mathlib

/- Verification development for the `jfb` build orchestrator.

   Shallow embedding of the incremental build engine:
   `src/commands/build.rs` (FileUpdateCache, Builder), `src/commands/build/deps.rs`
   (dependency fetch/build), and the configuration types of `src/config.rs`.

   Modelling conventions:
   - `SystemTime` modification timestamps are natural numbers ordered by `<`
     (only their total order is used by the code).
   - Paths are strings; `Path::join` is textual concatenation with a slash
     separator; `file_name`, `file_stem` and `extension` follow the textual
     semantics of the Rust standard library on such path strings.
   - `HashMap` is an association list; `mapInsert` replaces any previous
     binding of the key, as `HashMap::insert` does; only `mapGet` lookup
     semantics are relied on.
   - The external world (filesystem listings, file metadata, exit status of
     spawned processes) is a parameter `Env` of pure functions; a spawned
     command succeeds exactly when `Env.runOk` says so.
   - Fallible operations return `Except String`; the `?` operator of Rust is
     explicit error propagation. Where a Rust method keeps mutating state
     that the caller drops on error, the model returns the final state
     together with an optional error.  -/

namespace Jfb

/-! ## Path helpers (textual semantics of Rust `std::path::Path`) -/

/-- `Path::join` for a relative second component. -/
def joinPath (a b : String) : String := a ++ "/" ++ b

/-- `Path::file_name`: the component after the last slash (total model;
the `None` cases of Rust do not arise for the paths the claims touch). -/
def fileName (s : String) : String :=
  ⟨(s.data.reverse.takeWhile (fun c => !(c == '/'))).reverse⟩

/-- Position of the last `.` occurring at index ≥ 1 of the character list,
counting indices from `i`. This is the split point used by Rust
`file_stem`/`extension`: a leading dot is not an extension separator. -/
def lastDotFrom : List Char → Nat → Option Nat
  | [], _ => none
  | c :: rest, i =>
    match lastDotFrom rest (i + 1) with
    | some j => some j
    | none => if c = '.' ∧ 1 ≤ i then some i else none

/-- Split a file name into stem and extension, following Rust
`Path::file_stem`/`Path::extension` (with the `".."` special case). -/
def splitFileAtDot (s : String) : String × Option String :=
  if s = ".." then (s, none)
  else
    match lastDotFrom s.data 0 with
    | none => (s, none)
    | some i => (⟨s.data.take i⟩, some ⟨s.data.drop (i + 1)⟩)

/-- Rust `Path::file_stem` (of the path's file name). -/
def fileStem (s : String) : String := (splitFileAtDot (fileName s)).1

/-- Rust `Path::extension` (of the path's file name). -/
def pathExtension (s : String) : Option String := (splitFileAtDot (fileName s)).2

/-! ## Association-list model of `HashMap` -/

/-- `HashMap::get`. -/
def mapGet {α : Type} (m : List (String × α)) (k : String) : Option α :=
  match m.find? (fun e => e.1 == k) with
  | some e => some e.2
  | none => none

/-- `HashMap::insert`: the new binding replaces any previous binding of `k`. -/
def mapInsert {α : Type} (m : List (String × α)) (k : String) (v : α) :
    List (String × α) :=
  (k, v) :: m.filter (fun e => !(e.1 == k))

/-! ## `FileUpdateCache::is_updated` (src/commands/build.rs, lines 37–50) -/

/-- `FileUpdateCache::is_updated`. `mtime` is the filesystem's answer to
`fs::metadata(path)?.modified()?`; `none` models a metadata read error. -/
def is_updated (mtime : String → Option Nat) (cache : List (String × Nat))
    (path : String) : Except String (Bool × List (String × Nat)) :=
  match mtime path with
  | none => Except.error ("metadata error: " ++ path)
  | some modified =>
    let cached_time := mapGet cache path
    let is_upd : Bool :=
      match cached_time with
      | some cached => decide (cached < modified)
      | none => true
    if is_upd then Except.ok (true, mapInsert cache path modified)
    else Except.ok (false, cache)

/-! ## Configuration data model (src/config.rs) -/

inductive TargetLanguage where
  | c
  | cpp
  deriving DecidableEq

inductive TargetType where
  | binary
  | staticLibrary
  deriving DecidableEq

/-- `BuildConfigOverrides`: every field optional (src/config.rs, 194–234). -/
structure BuildConfigOverrides where
  opt_level : Option String
  c_compiler : Option String
  cpp_compiler : Option String
  c_standard : Option String
  cpp_standard : Option String
  c_linker : Option String
  cpp_linker : Option String
  debug : Option Bool
  warnings_as_errors : Option Bool
  warnings : Option (List String)
  flags : Option (List String)
  defines : Option (List String)
  deriving DecidableEq

/-- `BuildConfig` (src/config.rs, 111–158); only fields the build engine reads. -/
structure BuildConfig where
  build_dir : String
  dep_dir : String
  output_compile_commands : Bool
  opt_level : String
  c_compiler : String
  cpp_compiler : String
  c_standard : String
  cpp_standard : String
  c_linker : String
  cpp_linker : String
  debug : Bool
  warnings_as_errors : Bool
  warnings : List String
  flags : List String
  defines : List String
  deriving DecidableEq

/-- `TargetConfig` (src/config.rs, 264–296). -/
structure TargetConfig where
  name : String
  target_type : TargetType
  language : TargetLanguage
  source_dirs : List String
  include_dirs : List String
  library_dirs : List String
  libraries : List String
  dependencies : List String
  build_overrides : Option BuildConfigOverrides
  deriving DecidableEq

/-- `DependencyConfig` (src/config.rs, 314–325). -/
structure DependencyConfig where
  git : String
  tag : Option String
  cmake_flags : List String
  deriving DecidableEq

/-! ## Per-target option resolution (`Builder::compile_file`, build.rs 246–357)

Each `eff…` definition is one `unwrap_or` chain of the Rust source:
`target.build_overrides.as_ref().and_then(|o| o.field.as_ref()).unwrap_or(&global)`
for scalars, and `global.iter().chain(override.unwrap_or(&vec![]))` for lists. -/

def effCompiler (cfg : BuildConfig) (t : TargetConfig) : String :=
  match t.language with
  | .c => ((t.build_overrides.bind (fun o => o.c_compiler)).getD cfg.c_compiler)
  | .cpp => ((t.build_overrides.bind (fun o => o.cpp_compiler)).getD cfg.cpp_compiler)

def effStandard (cfg : BuildConfig) (t : TargetConfig) : String :=
  match t.language with
  | .c => ((t.build_overrides.bind (fun o => o.c_standard)).getD cfg.c_standard)
  | .cpp => ((t.build_overrides.bind (fun o => o.cpp_standard)).getD cfg.cpp_standard)

/-- build.rs 288–301: global flags chained with the override flags (or `vec![]`). -/
def effFlags (cfg : BuildConfig) (t : TargetConfig) : List String :=
  cfg.flags ++ ((t.build_overrides.bind (fun o => o.flags)).getD [])

def effOptLevel (cfg : BuildConfig) (t : TargetConfig) : String :=
  "-O" ++ ((t.build_overrides.bind (fun o => o.opt_level)).getD cfg.opt_level)

/-- build.rs 312–325: global warnings chained with the override warnings,
each emitted with a `-W` prefix. -/
def effWarnings (cfg : BuildConfig) (t : TargetConfig) : List String :=
  (cfg.warnings ++ ((t.build_overrides.bind (fun o => o.warnings)).getD [])).map
    (fun w => "-W" ++ w)

def effDebug (cfg : BuildConfig) (t : TargetConfig) : Bool :=
  (t.build_overrides.bind (fun o => o.debug)).getD cfg.debug

def effWerror (cfg : BuildConfig) (t : TargetConfig) : Bool :=
  (t.build_overrides.bind (fun o => o.warnings_as_errors)).getD cfg.warnings_as_errors

/-- The full compiler invocation assembled by `Builder::compile_file`
(build.rs 246–357), as its argument vector: compiler, `-std=`, flags,
`-D` defines (global only), `-I` include dirs, `-W` warnings, `-g`/`-Werror`
extras, `-O`, then `-c src -o obj`. -/
def compileFileArgs (cfg : BuildConfig) (base_dir : String) (t : TargetConfig)
    (src obj : String) : List String :=
  let standard_arg := "-std=" ++ effStandard cfg t
  let include_dirs := t.include_dirs.map (fun d => "-I" ++ joinPath base_dir d)
  let defines := cfg.defines.map (fun d => "-D" ++ d)
  let extra_args :=
    (if effDebug cfg t then ["-g"] else []) ++
    (if effWerror cfg t then ["-Werror"] else [])
  [effCompiler cfg t, standard_arg] ++ effFlags cfg t ++ defines ++ include_dirs ++
    effWarnings cfg t ++ extra_args ++ [effOptLevel cfg t, "-c", src, "-o", obj]

/-! ## Linker / archiver invocation (`Builder::compile_target`, build.rs 184–241) -/

/-- The `strip_prefix("lib") … unwrap_or(&lib_name)` step of build.rs line 213:
remove a leading `lib`, keeping the name unchanged when the prefix is absent. -/
def stripLib (s : String) : String :=
  match s.data with
  | 'l' :: 'i' :: 'b' :: rest => ⟨rest⟩
  | _ => s

/-- One `-l` flag from a configured library reference (build.rs 208–215):
`format!("-l{}", ...)` applied to the reference's file stem with a leading
`lib` removed. -/
def libFlag (lib : String) : String :=
  let lib_name := fileStem lib
  "-l" ++ stripLib lib_name

/-- The linker resolved for a Binary target (build.rs 189–200). Note the Rust
falls back to the *compiler* fields of the global config, not its linker
fields. -/
def effLinker (cfg : BuildConfig) (t : TargetConfig) : String :=
  match t.language with
  | .c => ((t.build_overrides.bind (fun o => o.c_linker)).getD cfg.c_compiler)
  | .cpp => ((t.build_overrides.bind (fun o => o.cpp_linker)).getD cfg.cpp_compiler)

/-- Argument vector of the link step for a Binary target (build.rs 202–224). -/
def linkArgs (cfg : BuildConfig) (base_dir out_dir : String) (t : TargetConfig)
    (obj_files : List String) : List String :=
  let library_paths := t.library_dirs.map (fun d => "-L" ++ joinPath base_dir d)
  let libraries := t.libraries.map libFlag
  [effLinker cfg t] ++ obj_files ++ library_paths ++ libraries ++
    ["-o", joinPath out_dir t.name]

/-- Argument vector of the archive step for a StaticLibrary target
(build.rs 228–237): `ar rcs lib<name>.a <objects…>`. -/
def archiveArgs (out_dir : String) (t : TargetConfig) (obj_files : List String) :
    List String :=
  ["ar", "rcs", joinPath out_dir ("lib" ++ t.name ++ ".a")] ++ obj_files

/-! ## External commands, environment, run state -/

/-- The external process invocations the build engine spawns. -/
inductive Cmd where
  | gitClone (url : String) (tag : Option String) (dest : String)
  | cmakeConfigure (dir : String) (flags : List String)
  | cmakeBuild (dir : String)
  | compile (args : List String)
  | link (args : List String)
  | archive (args : List String)
  deriving DecidableEq

/-- One entry of the compile database (build.rs 19–24). The Rust stores the
whitespace-tokenized command string; modelled as the argument vector itself. -/
structure CompileCommand where
  directory : String
  arguments : List String
  file : String
  deriving DecidableEq

/-- The external world, as pure functions: directory listings, file-ness,
modification times (`none` = metadata error), existence, and the exit status
of spawned commands. -/
structure Env where
  readDir : String → List String
  isFile : String → Bool
  mtime : String → Option Nat
  pathExists : String → Bool
  runOk : Cmd → Bool

/-- The mutable state of one `Builder` run: the change-detection cache, the
compile-command map, and (for observation) the commands spawned so far. -/
structure RunState where
  cache : List (String × Nat)
  ccmds : List (String × CompileCommand)
  cmds : List Cmd
  deriving DecidableEq

/-- The artifact files written by `Builder::write_build_artifacts`. -/
inductive Write where
  | compileCommandsFile (path : String) (entries : List (String × CompileCommand))
  | cacheFile (path : String) (cache : List (String × Nat))
  deriving DecidableEq

/-! ## `Builder::compile_file` as a state step (build.rs 246–378)

The Rust method assembles the command, records it in the compile-command map
when `output_compile_commands` is set, then spawns it; a nonzero exit is an
error the caller propagates. -/

def compile_file (env : Env) (cfg : BuildConfig) (base_dir : String)
    (t : TargetConfig) (src obj : String) (st : RunState) :
    RunState × Option String :=
  let args := compileFileArgs cfg base_dir t src obj
  let st :=
    if cfg.output_compile_commands then
      { st with ccmds := mapInsert st.ccmds src ⟨base_dir, args, src⟩ }
    else st
  let st := { st with cmds := st.cmds ++ [Cmd.compile args] }
  if env.runOk (Cmd.compile args) then (st, none)
  else (st, some ("compile failed: " ++ src))

/-! ## Source discovery (`Builder::compile_target`, build.rs 143–172) -/

/-- Discovery of a target's (source, object) pairs: list each configured
source directory, keep files whose extension matches the target's language,
and pair each with its object path `out_dir/<stem>.o`. The Rust builds
`src_files` and `obj_files` in lockstep and zips them; the pair list is that
zip. -/
def discover (env : Env) (base_dir out_dir : String) (t : TargetConfig) :
    List (String × String) :=
  (t.source_dirs.flatMap (fun d => env.readDir (joinPath base_dir d))).filterMap
    (fun entry =>
      if env.isFile entry then
        match pathExtension entry with
        | some ext =>
          match t.language with
          | .c =>
            if ext = "c" then
              some (entry, joinPath out_dir (fileStem entry ++ ".o"))
            else none
          | .cpp =>
            if ext = "cpp" ∨ ext = "cc" ∨ ext = "cxx" then
              some (entry, joinPath out_dir (fileStem entry ++ ".o"))
            else none
        | none => none
      else none)

/-! ## The compile loop (`Builder::compile_target`, build.rs 175–182) -/

/-- `for (src, obj) in … { if self.config_updated || self.file_cache.is_updated(src)? { compile } else { skip } }`
with Rust's short-circuit `||`: when `config_updated` is set, `is_updated`
is never invoked. The state at the first error is returned alongside it. -/
def compileLoop (env : Env) (cfg : BuildConfig) (base_dir : String)
    (t : TargetConfig) (config_updated : Bool) :
    List (String × String) → RunState → RunState × Option String
  | [], st => (st, none)
  | (src, obj) :: rest, st =>
    if config_updated then
      match compile_file env cfg base_dir t src obj st with
      | (st', some e) => (st', some e)
      | (st', none) => compileLoop env cfg base_dir t config_updated rest st'
    else
      match is_updated env.mtime st.cache src with
      | Except.error e => (st, some e)
      | Except.ok (b, cache') =>
        let st' := { st with cache := cache' }
        if b then
          match compile_file env cfg base_dir t src obj st' with
          | (st'', some e) => (st'', some e)
          | (st'', none) => compileLoop env cfg base_dir t config_updated rest st''
        else
          compileLoop env cfg base_dir t config_updated rest st'

/-- The terminal command of a target: link for Binary (build.rs 185–227),
archive for StaticLibrary (build.rs 228–240). -/
def terminalCmd (cfg : BuildConfig) (base_dir out_dir : String)
    (t : TargetConfig) (obj_files : List String) : Cmd :=
  match t.target_type with
  | .binary => Cmd.link (linkArgs cfg base_dir out_dir t obj_files)
  | .staticLibrary => Cmd.archive (archiveArgs out_dir t obj_files)

/-- `Builder::compile_target` (build.rs 138–244): discover sources, run the
compile loop, then execute the terminal link/archive command over all of the
target's computed object files. -/
def compile_target (env : Env) (cfg : BuildConfig) (base_dir build_dir : String)
    (t : TargetConfig) (config_updated : Bool) (st : RunState) :
    RunState × Option String :=
  let out_dir := joinPath build_dir t.name
  let pairs := discover env base_dir out_dir t
  match compileLoop env cfg base_dir t config_updated pairs st with
  | (st', some e) => (st', some e)
  | (st', none) =>
    let obj_files := pairs.map (fun pr => pr.2)
    let cmd := terminalCmd cfg base_dir out_dir t obj_files
    let st'' := { st' with cmds := st'.cmds ++ [cmd] }
    if env.runOk cmd then (st'', none)
    else (st'', some ("terminal step failed: " ++ t.name))

/-! ## Dependency fetch and build (src/commands/build/deps.rs) -/

/-- `Builder::download_dependency` (deps.rs 7–31): skip when the target
directory exists, otherwise clone the configured URL (with the optional tag)
into `<dep_dir>/<name>`. -/
def download_dependency (env : Env) (dep_dir dep_name : String)
    (dep : DependencyConfig) (st : RunState) : RunState × Option String :=
  let target_path := joinPath dep_dir dep_name
  if env.pathExists target_path then (st, none)
  else
    let cmd := Cmd.gitClone dep.git dep.tag dep_name
    let st' := { st with cmds := st.cmds ++ [cmd] }
    if env.runOk cmd then (st', none)
    else (st', some ("clone failed: " ++ dep_name))

/-- `Builder::build_dependency` (deps.rs 40–71): fail with "dependency not
found" when the fetched directory is absent; otherwise run the cmake
configure step (dependency flags then profile flags) and the cmake build
step, unconditionally on every invocation.
`profile_flags` is modelled from the spec: deps.rs calls
`self.build_profile().cmake_flags`, and `build_profile` is not among the
repository's source files; per the spec these are "the active build
profile's flags" passed after the dependency's own. -/
def build_dependency (env : Env) (dep_dir : String) (profile_flags : List String)
    (dep_name : String) (dep : DependencyConfig) (st : RunState) :
    RunState × Option String :=
  let target_path := joinPath dep_dir dep_name
  if env.pathExists target_path then
    let build_path := joinPath target_path "build"
    let cfgCmd := Cmd.cmakeConfigure build_path (dep.cmake_flags ++ profile_flags)
    let st' := { st with cmds := st.cmds ++ [cfgCmd] }
    if env.runOk cfgCmd then
      let bCmd := Cmd.cmakeBuild build_path
      let st'' := { st' with cmds := st'.cmds ++ [bCmd] }
      if env.runOk bCmd then (st'', none)
      else (st'', some ("cmake build failed: " ++ dep_name))
    else (st', some ("cmake configure failed: " ++ dep_name))
  else
    (st, some ("Dependency `" ++ dep_name ++ "` not found at " ++ target_path))

/-- `Builder::fetch_dependencies` (deps.rs 33–38). -/
def fetch_dependencies (env : Env) (dep_dir : String) :
    List (String × DependencyConfig) → RunState → RunState × Option String
  | [], st => (st, none)
  | (name, dep) :: rest, st =>
    match download_dependency env dep_dir name dep st with
    | (st', some e) => (st', some e)
    | (st', none) => fetch_dependencies env dep_dir rest st'

/-- `Builder::build_dependencies` (deps.rs 73–78). -/
def build_dependencies (env : Env) (dep_dir : String) (profile_flags : List String) :
    List (String × DependencyConfig) → RunState → RunState × Option String
  | [], st => (st, none)
  | (name, dep) :: rest, st =>
    match build_dependency env dep_dir profile_flags name dep st with
    | (st', some e) => (st', some e)
    | (st', none) => build_dependencies env dep_dir profile_flags rest st'

/-! ## Orchestration (`Builder::build`, build.rs 112–136) -/

/-- The per-target loop of `Builder::build` (build.rs 123–127). -/
def targetsLoop (env : Env) (cfg : BuildConfig) (base_dir build_dir : String)
    (config_updated : Bool) :
    List TargetConfig → RunState → RunState × Option String
  | [], st => (st, none)
  | t :: rest, st =>
    match compile_target env cfg base_dir build_dir t config_updated st with
    | (st', some e) => (st', some e)
    | (st', none) => targetsLoop env cfg base_dir build_dir config_updated rest st'

/-- `Builder::write_build_artifacts` (build.rs 380–402): the compile database
and the change-detection cache, both under the build directory. -/
def write_build_artifacts (base_dir : String) (cfg : BuildConfig)
    (st : RunState) : List Write :=
  let build_dir := joinPath base_dir cfg.build_dir
  [Write.compileCommandsFile (joinPath build_dir "compile_commands.json") st.ccmds,
    Write.cacheFile (joinPath build_dir "jfb_cache.json") st.cache]

/-- `Builder::build` (build.rs 112–136): fetch dependencies, build
dependencies, compile every target in order, and — only when
`output_compile_commands` is set — write the build artifacts. On any error
nothing is written. -/
def build (env : Env) (cfg : BuildConfig)
    (deps : List (String × DependencyConfig)) (targets : List TargetConfig)
    (base_dir : String) (profile_flags : List String) (config_updated : Bool)
    (st : RunState) : RunState × List Write × Option String :=
  let build_dir := joinPath base_dir cfg.build_dir
  let dep_dir := joinPath base_dir cfg.dep_dir
  match fetch_dependencies env dep_dir deps st with
  | (st1, some e) => (st1, [], some e)
  | (st1, none) =>
    match build_dependencies env dep_dir profile_flags deps st1 with
    | (st2, some e) => (st2, [], some e)
    | (st2, none) =>
      match targetsLoop env cfg base_dir build_dir config_updated targets st2 with
      | (st3, some e) => (st3, [], some e)
      | (st3, none) =>
        let writes :=
          if cfg.output_compile_commands then write_build_artifacts base_dir cfg st3
          else []
        (st3, writes, none)

/-- `Builder::new` (build.rs 64–110), the part relevant to the cache: run
`is_updated` on the configuration file against the cache loaded from disk,
producing the starting cache and the `config_updated` flag. -/
def builderNew (mtime : String → Option Nat) (diskCache : List (String × Nat))
    (config_path : String) :
    Except String (List (String × Nat) × Bool) :=
  match is_updated mtime diskCache config_path with
  | Except.error e => Except.error e
  | Except.ok (b, c) => Except.ok (c, b)

/-! ## Concrete configurations used by witnesses -/

/-- An override block with no optional field set. -/
def ovEmpty : BuildConfigOverrides :=
  { opt_level := none, c_compiler := none, cpp_compiler := none, c_standard := none,
    cpp_standard := none, c_linker := none, cpp_linker := none, debug := none,
    warnings_as_errors := none, warnings := none, flags := none, defines := none }

/-- An override block that extends the flag and warning lists. -/
def ovEx : BuildConfigOverrides :=
  { ovEmpty with warnings := some ["conversion"], flags := some ["a"] }

/-- A small global build configuration (shape of `BuildConfig::default`). -/
def cfgEx : BuildConfig :=
  { build_dir := "build", dep_dir := "deps", output_compile_commands := true,
    opt_level := "0", c_compiler := "gcc", cpp_compiler := "g++", c_standard := "c11",
    cpp_standard := "c++11", c_linker := "gcc", cpp_linker := "g++", debug := true,
    warnings_as_errors := false, warnings := ["all"], flags := ["g"],
    defines := ["NDEBUG"] }

/-- A small C binary target carrying `ovEx` as its override block. -/
def tEx : TargetConfig :=
  { name := "app", target_type := .binary, language := .c, source_dirs := ["src"],
    include_dirs := ["include"], library_dirs := [], libraries := [],
    dependencies := [], build_overrides := some ovEx }

/-- A one-target project `/p` with a single C source `/p/src/main.c`
(modification time 5); every directory exists and every command succeeds. -/
def envOk : Env :=
  { readDir := fun d => if d = "/p/src" then ["/p/src/main.c"] else [],
    isFile := fun f => f == "/p/src/main.c",
    mtime := fun f =>
      if f = "/p/src/main.c" then some 5
      else if f = "/p/jfb.toml" then some 9
      else none,
    pathExists := fun _ => true,
    runOk := fun _ => true }

/-- `envOk` with a compiler that fails on every compile command. -/
def envFail : Env :=
  { envOk with
    runOk := fun c =>
      match c with
      | Cmd.compile _ => false
      | _ => true }

/-- `envOk` with no dependency directory present. -/
def envNoDir : Env := { envOk with pathExists := fun _ => false }

/-- The single C binary target of the witness project. -/
def tMain : TargetConfig :=
  { name := "app", target_type := .binary, language := .c, source_dirs := ["src"],
    include_dirs := [], library_dirs := [], libraries := [], dependencies := [],
    build_overrides := none }

/-- A dependency configuration for witnesses. -/
def depEx : DependencyConfig :=
  { git := "https://example.org/zlib.git", tag := none, cmake_flags := [] }

/-- The empty starting run state. -/
def st0 : RunState := { cache := [], ccmds := [], cmds := [] }

end Jfb

namespace Jfb

theorem mapGet_insert {α : Type} (m : List (String × α)) (k k' : String) (v : α) :
    mapGet (mapInsert m k v) k' = if k' = k then some v else mapGet m k' := by
  by_cases h : k' = k
  · subst h
    simp [mapGet, mapInsert, List.find?]
  · simp only [mapGet, mapInsert, List.find?, if_neg h]
    have hbeq : (k == k') = false := by
      simp [beq_eq_false_iff_ne]
      exact fun hc => h hc.symm
    rw [hbeq]
    simp only
    congr 1
    induction m with
    | nil => rfl
    | cons e rest ih =>
      by_cases he : e.1 = k
      · have h1 : (e.1 == k) = true := by simp [he]
        have h2 : (e.1 == k') = false := by
          simp [beq_eq_false_iff_ne, he]
          exact fun hc => h hc.symm
        simp [List.filter, List.find?, h1, h2, ih]
      · have h1 : (e.1 == k) = false := by simp [beq_eq_false_iff_ne, he]
        by_cases he' : e.1 = k'
        · have h2 : (e.1 == k') = true := by simp [he']
          simp [List.filter, List.find?, h1, h2]
        · have h2 : (e.1 == k') = false := by simp [beq_eq_false_iff_ne, he']
          simp [List.filter, List.find?, h1, h2, ih]

/-- C1: `is_updated` returns true exactly when the cache holds no record for
the path or the current modification time is strictly greater than the
recorded one, and in exactly those cases stores the current time; otherwise
it returns false and leaves the cache unchanged. A fresh path's first call
returns true and a second call with the same file state returns false; an
unreadable file yields an error. -/
theorem is_updated_spec (mtime : String → Option Nat)
    (c : List (String × Nat)) (p : String) :
    (mtime p = none → is_updated mtime c p = Except.error ("metadata error: " ++ p)) ∧
    (∀ m, mtime p = some m →
      (mapGet c p = none →
        is_updated mtime c p = Except.ok (true, mapInsert c p m) ∧
        is_updated mtime (mapInsert c p m) p = Except.ok (false, mapInsert c p m)) ∧
      (∀ t, mapGet c p = some t →
        (t < m → is_updated mtime c p = Except.ok (true, mapInsert c p m)) ∧
        (¬ t < m → is_updated mtime c p = Except.ok (false, c)))) := by
  refine ⟨fun h => by simp [is_updated, h], fun m hm => ⟨fun hnone => ⟨?_, ?_⟩, fun t ht => ⟨?_, ?_⟩⟩⟩
  · simp [is_updated, hm, hnone]
  · have hins : mapGet (mapInsert c p m) p = some m := by
      simp [mapGet_insert]
    simp [is_updated, hm, hins]
  · intro hlt
    simp [is_updated, hm, ht, hlt]
  · intro hge
    simp [is_updated, hm, ht, hge]

/-- Witness for C1 at a concrete filesystem: fresh path, repeat call, and a
missing file. -/
theorem is_updated_spec_witness :
    is_updated (fun p => if p = "main.c" then some 5 else none) [] "main.c"
      = Except.ok (true, [("main.c", 5)]) ∧
    is_updated (fun p => if p = "main.c" then some 5 else none) [("main.c", 5)] "main.c"
      = Except.ok (false, [("main.c", 5)]) ∧
    is_updated (fun p => if p = "main.c" then some 5 else none) [] "other.c"
      = Except.error ("metadata error: " ++ "other.c") := by
  have h := is_updated_spec (fun p => if p = "main.c" then some 5 else none) [] "main.c"
  have h2 := is_updated_spec (fun p => if p = "main.c" then some 5 else none) [] "other.c"
  have hfresh := (h.2 5 (by simp)).1 (by simp [mapGet])
  refine ⟨?_, ?_, h2.1 (by simp)⟩
  · have := hfresh.1
    simpa [mapInsert] using this
  · have := hfresh.2
    simpa [mapInsert] using this

/-- C5: no call to `is_updated` ever replaces a recorded timestamp with a
strictly smaller one: whatever path is probed, every previously recorded
entry survives with a time at least as large as before. -/
theorem is_updated_monotone (mtime : String → Option Nat)
    (c : List (String × Nat)) (p q : String) (t : Nat) (b : Bool)
    (c' : List (String × Nat))
    (hq : mapGet c q = some t)
    (hrun : is_updated mtime c p = Except.ok (b, c')) :
    ∃ u, mapGet c' q = some u ∧ t ≤ u := by
  unfold is_updated at hrun
  cases hmt : mtime p with
  | none => rw [hmt] at hrun; exact absurd hrun (by simp)
  | some m =>
    rw [hmt] at hrun
    simp only at hrun
    by_cases hpq : q = p
    · subst hpq
      rw [hq] at hrun
      by_cases hlt : t < m
      · simp only [hlt, decide_eq_true_eq, if_pos] at hrun
        have hc' : c' = mapInsert c q m := by
          have := hrun
          injection this with h1
          exact (Prod.mk.injEq .. ▸ h1).2.symm
        exact ⟨m, by rw [hc', mapGet_insert]; simp, le_of_lt hlt⟩
      · rw [if_neg (by simpa using hlt)] at hrun
        injection hrun with h1
        have hc' : c' = c := (Prod.mk.injEq .. ▸ h1).2.symm
        exact ⟨t, hc' ▸ hq, le_refl t⟩
    · cases hcp : mapGet c p with
      | none =>
        rw [hcp] at hrun
        rw [if_pos rfl] at hrun
        injection hrun with h1
        have hc' : c' = mapInsert c p m := (Prod.mk.injEq .. ▸ h1).2.symm
        exact ⟨t, by rw [hc', mapGet_insert]; simp [hpq, hq], le_refl t⟩
      | some cached =>
        rw [hcp] at hrun
        by_cases hlt : cached < m
        · rw [if_pos (by simpa using hlt)] at hrun
          injection hrun with h1
          have hc' : c' = mapInsert c p m := (Prod.mk.injEq .. ▸ h1).2.symm
          exact ⟨t, by rw [hc', mapGet_insert]; simp [hpq, hq], le_refl t⟩
        · rw [if_neg (by simpa using hlt)] at hrun
          injection hrun with h1
          have hc' : c' = c := (Prod.mk.injEq .. ▸ h1).2.symm
          exact ⟨t, hc' ▸ hq, le_refl t⟩

/-- Witness for C5 at a concrete call that overwrites the probed entry. -/
theorem is_updated_monotone_witness :
    ∃ u, mapGet [("a.c", 7)] "a.c" = some u ∧ 3 ≤ u := by
  have := is_updated_monotone (fun _ => some 7) [("a.c", 3)] "a.c" "a.c" 3 true
    [("a.c", 7)] (by simp [mapGet]) (by simp [is_updated, mapGet, mapInsert])
  exact this

/-- C4: the effective flag list is the global list followed by the override
list when the override is present, and the global list alone when absent;
likewise for warnings, each emitted with a `-W` prefix. An override extends
and never replaces the global list. -/
theorem effective_flags_and_warnings (cfg : BuildConfig) (t : TargetConfig) :
    (∀ o l, t.build_overrides = some o → o.flags = some l →
      effFlags cfg t = cfg.flags ++ l) ∧
    (t.build_overrides.bind (fun o => o.flags) = none →
      effFlags cfg t = cfg.flags) ∧
    (∀ o l, t.build_overrides = some o → o.warnings = some l →
      effWarnings cfg t = (cfg.warnings ++ l).map (fun w => "-W" ++ w)) ∧
    (t.build_overrides.bind (fun o => o.warnings) = none →
      effWarnings cfg t = cfg.warnings.map (fun w => "-W" ++ w)) := by
  refine ⟨?_, ?_, ?_, ?_⟩
  · intro o l ho hl
    simp [effFlags, ho, hl]
  · intro h
    simp [effFlags, h]
  · intro o l ho hl
    simp [effWarnings, ho, hl]
  · intro h
    simp [effWarnings, h]

/-- Witness for C4 at the concrete configuration: global flags `[g]` with
override `[a]` merge to `[g, a]`; warnings merge and take the `-W` prefix. -/
theorem effective_flags_and_warnings_witness :
    effFlags cfgEx tEx = ["g"] ++ ["a"] ∧
    effWarnings cfgEx tEx = (["all"] ++ ["conversion"]).map (fun w => "-W" ++ w) := by
  have h := effective_flags_and_warnings cfgEx tEx
  exact ⟨h.1 ovEx ["a"] rfl rfl, h.2.2.1 ovEx ["conversion"] rfl rfl⟩

/-- C7: the `-D` define flags of an assembled compile command come from the
global defines list alone: replacing the `defines` field of a target's
override block never changes the command, and the command depends on the
global defines exactly through the `-D`-prefixed segment. -/
theorem defines_global_only (cfg : BuildConfig) (base_dir : String)
    (t : TargetConfig) (src obj : String) (d : Option (List String)) :
    compileFileArgs cfg base_dir
      { t with build_overrides :=
          t.build_overrides.map (fun o => { o with defines := d }) } src obj
      = compileFileArgs cfg base_dir t src obj ∧
    ∃ pre post, ∀ ds,
      compileFileArgs { cfg with defines := ds } base_dir t src obj
        = pre ++ ds.map (fun x => "-D" ++ x) ++ post := by
  constructor
  · cases ht : t.build_overrides with
    | none =>
      simp [compileFileArgs, effCompiler, effStandard, effFlags, effOptLevel,
        effWarnings, effDebug, effWerror, ht]
    | some o =>
      simp [compileFileArgs, effCompiler, effStandard, effFlags, effOptLevel,
        effWarnings, effDebug, effWerror, ht]
  · refine ⟨[effCompiler cfg t, "-std=" ++ effStandard cfg t] ++ effFlags cfg t,
      t.include_dirs.map (fun dir => "-I" ++ joinPath base_dir dir) ++
        effWarnings cfg t ++
        ((if effDebug cfg t then ["-g"] else []) ++
          (if effWerror cfg t then ["-Werror"] else [])) ++
        [effOptLevel cfg t, "-c", src, "-o", obj], fun ds => ?_⟩
    simp [compileFileArgs, effCompiler, effStandard, effFlags, effOptLevel,
      effWarnings, effDebug, effWerror]

theorem lastDotFrom_none (cs : List Char) (hnd : '.' ∉ cs) :
    ∀ i, lastDotFrom cs i = none := by
  induction cs with
  | nil => intro i; rfl
  | cons c rest ih =>
    intro i
    have hc : c ≠ '.' := fun hcc => hnd (by rw [← hcc]; exact List.mem_cons_self c rest)
    have hr : '.' ∉ rest := fun hm => hnd (List.mem_cons_of_mem c hm)
    simp [lastDotFrom, ih hr, hc]

theorem lastDotFrom_append (xs ys : List Char) (i : Nat) :
    lastDotFrom (xs ++ ys) i =
      match lastDotFrom ys (i + xs.length) with
      | some j => some j
      | none => lastDotFrom xs i := by
  induction xs generalizing i with
  | nil =>
    simp only [List.nil_append, List.length_nil, Nat.add_zero]
    cases lastDotFrom ys i <;> rfl
  | cons c rest ih =>
    have hih := ih (i + 1)
    have harith : i + 1 + rest.length = i + (rest.length + 1) := by omega
    rw [harith] at hih
    simp only [List.length_cons]
    cases hy : lastDotFrom ys (i + (rest.length + 1)) with
    | some j =>
      rw [hy] at hih
      have hih2 : lastDotFrom (rest.append ys) (i + 1) = some j := hih
      simp only [List.cons_append, lastDotFrom]
      rw [hih2]
    | none =>
      rw [hy] at hih
      have hih2 : lastDotFrom (rest.append ys) (i + 1) = lastDotFrom rest (i + 1) := hih
      simp only [List.cons_append, lastDotFrom]
      rw [hih2]

theorem lastDotFrom_dot_cons (ext : List Char) (hedot : '.' ∉ ext) (n : Nat)
    (hn : 1 ≤ n) : lastDotFrom ('.' :: ext) n = some n := by
  simp [lastDotFrom, lastDotFrom_none ext hedot (n + 1), hn]

theorem fileName_of_no_slash (s : String) (h : '/' ∉ s.data) : fileName s = s := by
  obtain ⟨cs⟩ := s
  simp only [fileName]
  have htw : cs.reverse.takeWhile (fun c => !(c == '/')) = cs.reverse := by
    rw [List.takeWhile_eq_self_iff]
    intro a ha
    have hmem : a ∈ cs := List.mem_reverse.mp ha
    have hne : a ≠ '/' := fun hc => h (by rw [← hc]; exact hmem)
    simp [hne]
  rw [htw, List.reverse_reverse]

/-- C8: a Binary target's `-l` link flag for a library reference is obtained
by dropping the file extension and removing a leading `lib` when present:
any `base.ext` reference (single extension, plain file name) resolves to
`-l` plus the `lib`-less stem, and concretely `libfoo.a` and `foo.so` both
resolve to `-lfoo`. -/
theorem lib_flag_spec :
    (∀ base ext : String, base.data ≠ [] → '.' ∉ base.data → '/' ∉ base.data →
      ext.data ≠ [] → '.' ∉ ext.data → '/' ∉ ext.data →
      libFlag (base ++ "." ++ ext) = "-l" ++ stripLib base) ∧
    libFlag "libfoo.a" = "-lfoo" ∧
    libFlag "foo.so" = "-lfoo" := by
  refine ⟨?_, by decide, by decide⟩
  intro base ext hbne hbdot hbsl hene hedot hesl
  have hdot : (".".data : List Char) = ['.'] := by decide
  have hdata : (base ++ "." ++ ext).data = base.data ++ ('.' :: ext.data) := by
    rw [String.data_append, String.data_append, hdot]
    simp
  have hnosl : '/' ∉ (base ++ "." ++ ext).data := by
    rw [hdata]
    intro hmem
    rcases List.mem_append.mp hmem with h1 | h2
    · exact hbsl h1
    · rcases List.mem_cons.mp h2 with h3 | h4
      · exact absurd h3 (by decide)
      · exact hesl h4
  have hfn : fileName (base ++ "." ++ ext) = base ++ "." ++ ext :=
    fileName_of_no_slash _ hnosl
  have hne2 : (base ++ "." ++ ext) ≠ ".." := by
    intro hcontra
    have hlen : (base ++ "." ++ ext).data.length = ("..".data).length := by
      rw [hcontra]
    rw [hdata] at hlen
    have h3 : ("..".data).length = 2 := by decide
    rw [h3] at hlen
    simp only [List.length_append, List.length_cons] at hlen
    have h1 : 1 ≤ base.data.length := List.length_pos.mpr hbne
    have h2 : 1 ≤ ext.data.length := List.length_pos.mpr hene
    omega
  have hlast : lastDotFrom (base ++ "." ++ ext).data 0 = some base.data.length := by
    rw [hdata, lastDotFrom_append]
    have hpos : 1 ≤ 0 + base.data.length := by
      have := List.length_pos.mpr hbne
      omega
    rw [lastDotFrom_dot_cons ext.data hedot (0 + base.data.length) hpos]
    simp
  have htake : (base.data ++ '.' :: ext.data).take base.data.length = base.data :=
    List.take_left base.data ('.' :: ext.data)
  have hdrop : (base.data ++ '.' :: ext.data).drop (base.data.length + 1)
      = ext.data := by
    have hassoc : base.data ++ '.' :: ext.data =
        (base.data ++ ['.']) ++ ext.data := by simp
    have hlen1 : (base.data ++ ['.']).length = base.data.length + 1 := by simp
    rw [hassoc, ← hlen1]
    exact List.drop_left (base.data ++ ['.']) ext.data
  have hsplit : splitFileAtDot (base ++ "." ++ ext) = (base, some ext) := by
    unfold splitFileAtDot
    rw [if_neg hne2, hlast]
    simp only [hdata, htake, hdrop]
  have hstem : fileStem (base ++ "." ++ ext) = base := by
    unfold fileStem
    rw [hfn, hsplit]
  show "-l" ++ stripLib (fileStem (base ++ "." ++ ext)) = "-l" ++ stripLib base
  rw [hstem]

/-- Witness for C8 applied at the concrete reference `libfoo` + `a`. -/
theorem lib_flag_spec_witness :
    libFlag ("libfoo" ++ "." ++ "a") = "-l" ++ stripLib "libfoo" :=
  lib_flag_spec.1 "libfoo" "a" (by decide) (by decide) (by decide)
    (by decide) (by decide) (by decide)

/-- C6: the fetch stage skips (success, no command) when `<dep_dir>/<name>`
exists and otherwise clones the configured URL; the build stage fails with a
"dependency not found" error when that directory is absent and never
implicitly fetches, and when present runs the external configure step —
and, when configure succeeds, the build step — unconditionally. -/
theorem dependency_stage_spec (env : Env) (dep_dir dep_name : String)
    (dep : DependencyConfig) (pf : List String) (st : RunState) :
    (env.pathExists (joinPath dep_dir dep_name) = true →
      download_dependency env dep_dir dep_name dep st = (st, none)) ∧
    (env.pathExists (joinPath dep_dir dep_name) = false →
      (download_dependency env dep_dir dep_name dep st).1.cmds
        = st.cmds ++ [Cmd.gitClone dep.git dep.tag dep_name]) ∧
    (env.pathExists (joinPath dep_dir dep_name) = false →
      build_dependency env dep_dir pf dep_name dep st
        = (st, some ("Dependency `" ++ dep_name ++ "` not found at "
            ++ joinPath dep_dir dep_name))) ∧
    (env.pathExists (joinPath dep_dir dep_name) = true →
      (build_dependency env dep_dir pf dep_name dep st).1.cmds
        = st.cmds
          ++ [Cmd.cmakeConfigure (joinPath (joinPath dep_dir dep_name) "build")
              (dep.cmake_flags ++ pf)]
          ++ (if env.runOk (Cmd.cmakeConfigure
                (joinPath (joinPath dep_dir dep_name) "build")
                (dep.cmake_flags ++ pf)) then
              [Cmd.cmakeBuild (joinPath (joinPath dep_dir dep_name) "build")]
            else [])) := by
  refine ⟨?_, ?_, ?_, ?_⟩
  · intro h
    simp [download_dependency, h]
  · intro h
    by_cases hr : env.runOk (Cmd.gitClone dep.git dep.tag dep_name) <;>
      simp [download_dependency, h, hr]
  · intro h
    simp [build_dependency, h]
  · intro h
    by_cases hr : env.runOk (Cmd.cmakeConfigure
        (joinPath (joinPath dep_dir dep_name) "build") (dep.cmake_flags ++ pf))
    · by_cases hb : env.runOk (Cmd.cmakeBuild
          (joinPath (joinPath dep_dir dep_name) "build")) <;>
        simp [build_dependency, h, hr, hb]
    · simp [build_dependency, h, hr]

/-- Witness for C6: an existing dependency directory is not re-cloned, and a
missing one makes the build stage fail with "dependency not found". -/
theorem dependency_stage_spec_witness :
    download_dependency envOk (joinPath "/p" "deps") "zlib" depEx st0 = (st0, none) ∧
    build_dependency envNoDir (joinPath "/p" "deps") [] "zlib" depEx st0
      = (st0, some ("Dependency `" ++ "zlib" ++ "` not found at "
          ++ joinPath (joinPath "/p" "deps") "zlib")) := by
  have h1 := dependency_stage_spec envOk (joinPath "/p" "deps") "zlib" depEx [] st0
  have h2 := dependency_stage_spec envNoDir (joinPath "/p" "deps") "zlib" depEx [] st0
  exact ⟨h1.1 (by decide), h2.2.2.1 (by decide)⟩

theorem compileLoop_all_skip (env : Env) (cfg : BuildConfig)
    (base_dir : String) (t : TargetConfig) (pairs : List (String × String))
    (st : RunState)
    (h : ∀ src obj, (src, obj) ∈ pairs →
      ∃ m c, env.mtime src = some m ∧ mapGet st.cache src = some c ∧ ¬ c < m) :
    compileLoop env cfg base_dir t false pairs st = (st, none) := by
  induction pairs with
  | nil => rfl
  | cons pr rest ih =>
    obtain ⟨src, obj⟩ := pr
    obtain ⟨m, c, hm, hc, hlt⟩ := h src obj (List.mem_cons_self _ _)
    have hiu : is_updated env.mtime st.cache src = Except.ok (false, st.cache) := by
      simp [is_updated, hm, hc, hlt]
    have hrest := ih (fun s o hmem => h s o (List.mem_cons_of_mem _ hmem))
    simp only [compileLoop, hiu, Bool.false_eq_true, if_false]
    exact hrest

/-- C9: whenever a target's compile loop finishes without error, the
terminal link (Binary) or archive (StaticLibrary) command over all of the
target's computed object files is spawned; in particular when the flag is
clear and every discovered source is up to date in the cache, the run spawns
no compile command and exactly the terminal command. -/
theorem terminal_step_unconditional (env : Env) (cfg : BuildConfig)
    (base_dir build_dir : String) (t : TargetConfig) (cu : Bool) (st : RunState) :
    ((compileLoop env cfg base_dir t cu
        (discover env base_dir (joinPath build_dir t.name) t) st).2 = none →
      terminalCmd cfg base_dir (joinPath build_dir t.name) t
          ((discover env base_dir (joinPath build_dir t.name) t).map (fun pr => pr.2))
        ∈ (compile_target env cfg base_dir build_dir t cu st).1.cmds) ∧
    (cu = false →
      (∀ src obj, (src, obj) ∈ discover env base_dir (joinPath build_dir t.name) t →
        ∃ m c, env.mtime src = some m ∧ mapGet st.cache src = some c ∧ ¬ c < m) →
      (compile_target env cfg base_dir build_dir t cu st).1.cmds
        = st.cmds ++ [terminalCmd cfg base_dir (joinPath build_dir t.name) t
            ((discover env base_dir (joinPath build_dir t.name) t).map
              (fun pr => pr.2))]) := by
  constructor
  · intro hok
    unfold compile_target
    rcases hl : compileLoop env cfg base_dir t cu
        (discover env base_dir (joinPath build_dir t.name) t) st with ⟨st1, e1⟩
    rw [hl] at hok
    cases e1 with
    | some e => exact absurd hok (by simp)
    | none =>
      simp only [hl]
      by_cases hr : env.runOk (terminalCmd cfg base_dir (joinPath build_dir t.name) t
          ((discover env base_dir (joinPath build_dir t.name) t).map (fun pr => pr.2)))
      · simp [hr]
      · simp [hr]
  · intro hcu hall
    subst hcu
    have hl := compileLoop_all_skip env cfg base_dir t
      (discover env base_dir (joinPath build_dir t.name) t) st hall
    unfold compile_target
    simp only [hl]
    by_cases hr : env.runOk (terminalCmd cfg base_dir (joinPath build_dir t.name) t
        ((discover env base_dir (joinPath build_dir t.name) t).map (fun pr => pr.2)))
    · simp [hr]
    · simp [hr]

/-- Witness for C9 at the concrete project: the cache already holds
`main.c` at its current time, so nothing is compiled, yet the link command
over the single object file is still spawned. -/
theorem terminal_step_unconditional_witness :
    (compile_target envOk cfgEx "/p" (joinPath "/p" "build") tMain false
        ⟨[("/p/src/main.c", 5)], [], []⟩).1.cmds
      = [] ++ [terminalCmd cfgEx "/p" (joinPath (joinPath "/p" "build") "app") tMain
          ((discover envOk "/p" (joinPath (joinPath "/p" "build") "app") tMain).map
            (fun pr => pr.2))] := by
  have h := (terminal_step_unconditional envOk cfgEx "/p" (joinPath "/p" "build")
      tMain false ⟨[("/p/src/main.c", 5)], [], []⟩).2 rfl
  refine h ?_
  intro src obj hmem
  have hd : discover envOk "/p" (joinPath (joinPath "/p" "build") tMain.name) tMain
      = [("/p/src/main.c",
          joinPath (joinPath (joinPath "/p" "build") tMain.name) "main.o")] := by
    decide
  rw [hd] at hmem
  have hp := List.mem_singleton.mp hmem
  have hsrc : src = "/p/src/main.c" := congrArg Prod.fst hp
  subst hsrc
  exact ⟨5, 5, by decide, by decide, by decide⟩

theorem compile_file_cache (env : Env) (cfg : BuildConfig) (base_dir : String)
    (t : TargetConfig) (src obj : String) (st : RunState) :
    (compile_file env cfg base_dir t src obj st).1.cache = st.cache := by
  unfold compile_file
  by_cases hoc : cfg.output_compile_commands <;>
    by_cases hr : env.runOk (Cmd.compile (compileFileArgs cfg base_dir t src obj)) <;>
      simp [hoc, hr]

theorem compileLoop_true_cache (env : Env) (cfg : BuildConfig)
    (base_dir : String) (t : TargetConfig) :
    ∀ (pairs : List (String × String)) (st : RunState),
      (compileLoop env cfg base_dir t true pairs st).1.cache = st.cache := by
  intro pairs
  induction pairs with
  | nil => intro st; rfl
  | cons pr rest ih =>
    intro st
    obtain ⟨src, obj⟩ := pr
    rcases hcf : compile_file env cfg base_dir t src obj st with ⟨st1, e1⟩
    have hc1 : st1.cache = st.cache := by
      have h := compile_file_cache env cfg base_dir t src obj st
      rw [hcf] at h
      exact h
    cases e1 with
    | some e => simp [compileLoop, hcf, hc1]
    | none => simp [compileLoop, hcf, ih st1, hc1]

theorem compile_target_true_cache (env : Env) (cfg : BuildConfig)
    (base_dir build_dir : String) (t : TargetConfig) (st : RunState) :
    (compile_target env cfg base_dir build_dir t true st).1.cache = st.cache := by
  unfold compile_target
  rcases hl : compileLoop env cfg base_dir t true
      (discover env base_dir (joinPath build_dir t.name) t) st with ⟨st1, e1⟩
  have hc1 : st1.cache = st.cache := by
    have h := compileLoop_true_cache env cfg base_dir t
      (discover env base_dir (joinPath build_dir t.name) t) st
    rw [hl] at h
    exact h
  cases e1 with
  | some e => simp [hl, hc1]
  | none =>
    by_cases hr : env.runOk (terminalCmd cfg base_dir (joinPath build_dir t.name) t
        ((discover env base_dir (joinPath build_dir t.name) t).map (fun pr => pr.2))) <;>
      simp [hl, hr, hc1]

theorem targetsLoop_true_cache (env : Env) (cfg : BuildConfig)
    (base_dir build_dir : String) :
    ∀ (targets : List TargetConfig) (st : RunState),
      (targetsLoop env cfg base_dir build_dir true targets st).1.cache = st.cache := by
  intro targets
  induction targets with
  | nil => intro st; rfl
  | cons t rest ih =>
    intro st
    rcases hct : compile_target env cfg base_dir build_dir t true st with ⟨st1, e1⟩
    have hc1 : st1.cache = st.cache := by
      have h := compile_target_true_cache env cfg base_dir build_dir t st
      rw [hct] at h
      exact h
    cases e1 with
    | some e => simp [targetsLoop, hct, hc1]
    | none => simp [targetsLoop, hct, ih st1, hc1]

theorem download_dependency_cache (env : Env) (dep_dir dep_name : String)
    (dep : DependencyConfig) (st : RunState) :
    (download_dependency env dep_dir dep_name dep st).1.cache = st.cache := by
  unfold download_dependency
  by_cases hp : env.pathExists (joinPath dep_dir dep_name) <;>
    by_cases hr : env.runOk (Cmd.gitClone dep.git dep.tag dep_name) <;>
      simp [hp, hr]

theorem build_dependency_cache (env : Env) (dep_dir : String)
    (pf : List String) (dep_name : String) (dep : DependencyConfig)
    (st : RunState) :
    (build_dependency env dep_dir pf dep_name dep st).1.cache = st.cache := by
  unfold build_dependency
  by_cases hp : env.pathExists (joinPath dep_dir dep_name)
  · by_cases hr : env.runOk (Cmd.cmakeConfigure
        (joinPath (joinPath dep_dir dep_name) "build") (dep.cmake_flags ++ pf))
    · by_cases hb : env.runOk (Cmd.cmakeBuild
          (joinPath (joinPath dep_dir dep_name) "build")) <;> simp [hp, hr, hb]
    · simp [hp, hr]
  · simp [hp]

theorem fetch_dependencies_cache (env : Env) (dep_dir : String) :
    ∀ (deps : List (String × DependencyConfig)) (st : RunState),
      (fetch_dependencies env dep_dir deps st).1.cache = st.cache := by
  intro deps
  induction deps with
  | nil => intro st; rfl
  | cons d rest ih =>
    intro st
    obtain ⟨name, dep⟩ := d
    rcases hd : download_dependency env dep_dir name dep st with ⟨st1, e1⟩
    have hc1 : st1.cache = st.cache := by
      have h := download_dependency_cache env dep_dir name dep st
      rw [hd] at h
      exact h
    cases e1 with
    | some e => simp [fetch_dependencies, hd, hc1]
    | none => simp [fetch_dependencies, hd, ih st1, hc1]

theorem build_dependencies_cache (env : Env) (dep_dir : String)
    (pf : List String) :
    ∀ (deps : List (String × DependencyConfig)) (st : RunState),
      (build_dependencies env dep_dir pf deps st).1.cache = st.cache := by
  intro deps
  induction deps with
  | nil => intro st; rfl
  | cons d rest ih =>
    intro st
    obtain ⟨name, dep⟩ := d
    rcases hd : build_dependency env dep_dir pf name dep st with ⟨st1, e1⟩
    have hc1 : st1.cache = st.cache := by
      have h := build_dependency_cache env dep_dir pf name dep st
      rw [hd] at h
      exact h
    cases e1 with
    | some e => simp [build_dependencies, hd, hc1]
    | none => simp [build_dependencies, hd, ih st1, hc1]

theorem build_true_cache (env : Env) (cfg : BuildConfig)
    (deps : List (String × DependencyConfig)) (targets : List TargetConfig)
    (base_dir : String) (pf : List String) (st : RunState) :
    (build env cfg deps targets base_dir pf true st).1.cache = st.cache := by
  unfold build
  rcases hf : fetch_dependencies env (joinPath base_dir cfg.dep_dir) deps st
    with ⟨st1, e1⟩
  have hc1 : st1.cache = st.cache := by
    have h := fetch_dependencies_cache env (joinPath base_dir cfg.dep_dir) deps st
    rw [hf] at h
    exact h
  cases e1 with
  | some e => simp [hf, hc1]
  | none =>
    rcases hb : build_dependencies env (joinPath base_dir cfg.dep_dir) pf deps st1
      with ⟨st2, e2⟩
    have hc2 : st2.cache = st1.cache := by
      have h := build_dependencies_cache env (joinPath base_dir cfg.dep_dir) pf deps st1
      rw [hb] at h
      exact h
    cases e2 with
    | some e => simp [hf, hb, hc2, hc1]
    | none =>
      rcases ht : targetsLoop env cfg base_dir (joinPath base_dir cfg.build_dir)
          true targets st2 with ⟨st3, e3⟩
      have hc3 : st3.cache = st2.cache := by
        have h := targetsLoop_true_cache env cfg base_dir
          (joinPath base_dir cfg.build_dir) targets st2
        rw [ht] at h
        exact h
      cases e3 with
      | some e => simp [hf, hb, ht, hc3, hc2, hc1]
      | none =>
        by_cases hoc : cfg.output_compile_commands <;>
          simp [hf, hb, ht, hoc, hc3, hc2, hc1]

/-- C10: with the config-changed flag set, the per-file staleness check is
short-circuited and `is_updated` never refreshes a source entry: the whole
run leaves the cache exactly as construction produced it, and construction's
only mutation is the configuration file's own entry. -/
theorem config_updated_frame (env : Env) (cfg : BuildConfig)
    (deps : List (String × DependencyConfig)) (targets : List TargetConfig)
    (base_dir config_path : String) (pf : List String)
    (diskCache c : List (String × Nat)) (ccmds0 : List (String × CompileCommand))
    (hnew : builderNew env.mtime diskCache config_path = Except.ok (c, true)) :
    (build env cfg deps targets base_dir pf true ⟨c, ccmds0, []⟩).1.cache = c ∧
    ∀ m, env.mtime config_path = some m → c = mapInsert diskCache config_path m := by
  constructor
  · exact build_true_cache env cfg deps targets base_dir pf ⟨c, ccmds0, []⟩
  · intro m hm
    unfold builderNew at hnew
    rcases hiu : is_updated env.mtime diskCache config_path with e | ⟨b, c'⟩
    · rw [hiu] at hnew
      exact absurd hnew (by simp)
    · rw [hiu] at hnew
      simp only [Except.ok.injEq, Prod.mk.injEq] at hnew
      unfold is_updated at hiu
      rw [hm] at hiu
      simp only at hiu
      rcases hget : mapGet diskCache config_path with _ | t
      · rw [hget] at hiu
        simp only [if_pos] at hiu
        have : c' = mapInsert diskCache config_path m := by
          simp only [Except.ok.injEq, Prod.mk.injEq] at hiu
          exact hiu.2.symm
        rw [← hnew.1, this]
      · rw [hget] at hiu
        by_cases hlt : t < m
        · rw [if_pos (by simpa using hlt)] at hiu
          simp only [Except.ok.injEq, Prod.mk.injEq] at hiu
          rw [← hnew.1, ← hiu.2]
        · rw [if_neg (by simpa using hlt)] at hiu
          simp only [Except.ok.injEq, Prod.mk.injEq] at hiu
          exact absurd hiu.1 (by simp [hnew.2])

/-- Witness for C10: after construction records the config file, a full run
with the flag set keeps the cache at exactly that one entry. -/
theorem config_updated_frame_witness :
    (build envOk cfgEx [] [tMain] "/p" [] true
        ⟨[("/p/jfb.toml", 9)], [], []⟩).1.cache = [("/p/jfb.toml", 9)] ∧
    ∀ m, envOk.mtime "/p/jfb.toml" = some m →
      [("/p/jfb.toml", 9)] = mapInsert [] "/p/jfb.toml" m := by
  exact config_updated_frame envOk cfgEx [] [tMain] "/p" "/p/jfb.toml" []
    [] [("/p/jfb.toml", 9)] [] (by rfl)

theorem build_cases (env : Env) (cfg : BuildConfig)
    (deps : List (String × DependencyConfig)) (targets : List TargetConfig)
    (base_dir : String) (pf : List String) (cu : Bool) (st : RunState) :
    ((build env cfg deps targets base_dir pf cu st).2.2 = none ∧
      (build env cfg deps targets base_dir pf cu st).2.1
        = (if cfg.output_compile_commands then
            write_build_artifacts base_dir cfg
              (build env cfg deps targets base_dir pf cu st).1
          else [])) ∨
    (((build env cfg deps targets base_dir pf cu st).2.2).isSome = true ∧
      (build env cfg deps targets base_dir pf cu st).2.1 = []) := by
  unfold build
  rcases hf : fetch_dependencies env (joinPath base_dir cfg.dep_dir) deps st
    with ⟨st1, e1⟩
  cases e1 with
  | some e => right; simp [hf]
  | none =>
    rcases hb : build_dependencies env (joinPath base_dir cfg.dep_dir) pf deps st1
      with ⟨st2, e2⟩
    cases e2 with
    | some e => right; simp [hf, hb]
    | none =>
      rcases ht : targetsLoop env cfg base_dir (joinPath base_dir cfg.build_dir)
          cu targets st2 with ⟨st3, e3⟩
      cases e3 with
      | some e => right; simp [hf, hb, ht]
      | none => left; simp [hf, hb, ht]

/-- C2 counterexample: a build in which every stage succeeds but
`output_compile_commands` is false performs no writes at all — the
change-detection cache does not reach disk at the end of this successful
run, contrary to the claim that every successful build writes it back. -/
theorem build_cache_write_cex :
    (build envOk { cfgEx with output_compile_commands := false } [] [tMain]
        "/p" [] false st0).2.2 = none ∧
    (build envOk { cfgEx with output_compile_commands := false } [] [tMain]
        "/p" [] false st0).2.1 = [] :=
  ⟨rfl, rfl⟩

/-- C2 (amended): at the end of a build in which every dependency fetch and
build, every compilation and every terminal step succeeded, the
change-detection cache is written to `<build_dir>/jfb_cache.json` exactly
when the compile-database toggle `output_compile_commands` is enabled; when
the toggle is disabled nothing is written. -/
theorem build_cache_write_iff (env : Env) (cfg : BuildConfig)
    (deps : List (String × DependencyConfig)) (targets : List TargetConfig)
    (base_dir : String) (pf : List String) (cu : Bool) (st : RunState)
    (h : (build env cfg deps targets base_dir pf cu st).2.2 = none) :
    (Write.cacheFile (joinPath (joinPath base_dir cfg.build_dir) "jfb_cache.json")
        (build env cfg deps targets base_dir pf cu st).1.cache
      ∈ (build env cfg deps targets base_dir pf cu st).2.1)
      ↔ cfg.output_compile_commands = true := by
  rcases build_cases env cfg deps targets base_dir pf cu st with ⟨hn, hw⟩ | ⟨hs, hw⟩
  · rw [hw]
    by_cases hoc : cfg.output_compile_commands
    · simp [hoc, write_build_artifacts]
    · simp [hoc]
  · rw [h] at hs
    exact absurd hs (by simp)

/-- Witness for the amended C2 at the concrete successful single-target
build, where the toggle is enabled. -/
theorem build_cache_write_iff_witness :
    ((Write.cacheFile (joinPath (joinPath "/p" cfgEx.build_dir) "jfb_cache.json")
        (build envOk cfgEx [] [tMain] "/p" [] false st0).1.cache)
      ∈ (build envOk cfgEx [] [tMain] "/p" [] false st0).2.1)
      ↔ cfgEx.output_compile_commands = true :=
  build_cache_write_iff envOk cfgEx [] [tMain] "/p" [] false st0 (by rfl)

theorem compile_file_fail (env : Env) (cfg : BuildConfig) (base_dir : String)
    (t : TargetConfig) (src obj : String) (st : RunState)
    (h : env.runOk (Cmd.compile (compileFileArgs cfg base_dir t src obj)) = false) :
    (compile_file env cfg base_dir t src obj st).2
      = some ("compile failed: " ++ src) := by
  unfold compile_file
  by_cases hoc : cfg.output_compile_commands <;> simp [hoc, h]

/-- C3 counterexample: the compiler fails on `/p/src/main.c`; the build
aborts with an error and performs no writes, so the refreshed timestamp
never reaches disk — and the next run, starting from the same unchanged
on-disk cache, does not skip the failed file: it spawns its compile command
again, contrary to the claimed masking. -/
theorem failed_compile_not_masked_cex :
    ((build envFail cfgEx [] [tMain] "/p" [] false st0).2.2).isSome = true ∧
    (build envFail cfgEx [] [tMain] "/p" [] false st0).2.1 = [] ∧
    Cmd.compile (compileFileArgs cfgEx "/p" tMain "/p/src/main.c"
        (joinPath (joinPath (joinPath "/p" "build") "app") "main.o"))
      ∈ (build envOk cfgEx [] [tMain] "/p" [] false st0).1.cmds := by
  refine ⟨rfl, rfl, ?_⟩
  have hc : (build envOk cfgEx [] [tMain] "/p" [] false st0).1.cmds
      = [Cmd.compile (compileFileArgs cfgEx "/p" tMain "/p/src/main.c"
            (joinPath (joinPath (joinPath "/p" "build") "app") "main.o")),
          terminalCmd cfgEx "/p" (joinPath (joinPath "/p" "build") "app") tMain
            [joinPath (joinPath (joinPath "/p" "build") "app") "main.o"]] := rfl
  rw [hc]
  exact List.mem_cons_self _ _

/-- C3 (amended): `is_updated` refreshes the cache entry before the compile
is attempted — when a stale file's compile fails, the loop stops holding the
refreshed in-memory cache — but a failed build performs no writes, so the
refreshed timestamp is never persisted and the failure is not masked from
the next run's incremental decision. -/
theorem failed_compile_refreshes_memory_only :
    (∀ (env : Env) (cfg : BuildConfig) (base_dir : String) (t : TargetConfig)
        (src obj : String) (rest : List (String × String)) (st : RunState)
        (c' : List (String × Nat)),
      is_updated env.mtime st.cache src = Except.ok (true, c') →
      env.runOk (Cmd.compile (compileFileArgs cfg base_dir t src obj)) = false →
      (compileLoop env cfg base_dir t false ((src, obj) :: rest) st).1.cache = c' ∧
      ((compileLoop env cfg base_dir t false ((src, obj) :: rest) st).2).isSome
        = true) ∧
    (∀ (env : Env) (cfg : BuildConfig) (deps : List (String × DependencyConfig))
        (targets : List TargetConfig) (base_dir : String) (pf : List String)
        (cu : Bool) (st : RunState),
      ((build env cfg deps targets base_dir pf cu st).2.2).isSome = true →
      (build env cfg deps targets base_dir pf cu st).2.1 = []) := by
  constructor
  · intro env cfg base_dir t src obj rest st c' h1 h2
    rcases hcf : compile_file env cfg base_dir t src obj { st with cache := c' }
      with ⟨st1, e1⟩
    have hcache : st1.cache = c' := by
      have h := compile_file_cache env cfg base_dir t src obj { st with cache := c' }
      rw [hcf] at h
      exact h
    have he1 : e1 = some ("compile failed: " ++ src) := by
      have h := compile_file_fail env cfg base_dir t src obj { st with cache := c' } h2
      rw [hcf] at h
      exact h
    subst he1
    simp [compileLoop, h1, hcf, hcache]
  · intro env cfg deps targets base_dir pf cu st hs
    rcases build_cases env cfg deps targets base_dir pf cu st with ⟨hn, _⟩ | ⟨_, hw⟩
    · rw [hn] at hs
      exact absurd hs (by simp)
    · exact hw

/-- Witness for the amended C3 at the concrete failing compile: the loop
stops with the entry refreshed only in memory. -/
theorem failed_compile_refreshes_memory_only_witness :
    (compileLoop envFail cfgEx "/p" tMain false
        [("/p/src/main.c", "/p/build/app/main.o")] st0).1.cache
      = [("/p/src/main.c", 5)] ∧
    ((compileLoop envFail cfgEx "/p" tMain false
        [("/p/src/main.c", "/p/build/app/main.o")] st0).2).isSome = true :=
  failed_compile_refreshes_memory_only.1 envFail cfgEx "/p" tMain
    "/p/src/main.c" "/p/build/app/main.o" [] st0 [("/p/src/main.c", 5)]
    (by rfl) (by rfl)

end Jfb
